import Mathlib

/-!
Shallow embedding of the provider-fallback news and market functions of the
dailynews repository (netlify/functions): the article normalizer and
sanitizer, URL deduplication, the provider chains with cache fallback, the
cooldown/TTL cache handlers, and the top-movers ranking, together with
theorems settling the frozen specification claims.

JS conventions used throughout the embedding: machine floats that matter only
through finiteness tests are modelled by `JsNum`; JS string truthiness is
`truthy` (a string is falsy exactly when empty); timestamps are modelled by
`JDate` (either an instant in epoch milliseconds, or a falsy/unparsable value
that `toISO` replaces by the current time); a provider call that throws,
times out, or rejects is modelled as `Option.none`.
-/

namespace DailyNews

/-- Whitespace as stripped by JS `String.prototype.trim` (ASCII fragment). -/
def isJsSpace (c : Char) : Bool :=
  c = ' ' || c = '\t' || c = '\n' || c = '\r' || c = '\x0b' || c = '\x0c'

/-- Drop leading whitespace, as the left half of `trim`. -/
def trimLeftChars (l : List Char) : List Char := l.dropWhile isJsSpace

/-- Drop trailing whitespace, as the right half of `trim`. -/
def trimRightChars (l : List Char) : List Char := (l.reverse.dropWhile isJsSpace).reverse

/-- Model of JS `String.prototype.trim`. -/
def jsTrim (s : String) : String := ⟨trimRightChars (trimLeftChars s.data)⟩

/-- JS truthiness of a string value: falsy exactly when empty. -/
def truthy (s : String) : Bool := s ≠ ""

/-- A JS timestamp value as it matters to `toISO` in news.mjs: either it
parses to an epoch-milliseconds instant, or it is falsy/unparsable. -/
inductive JDate
  | parseable (ms : Int)
  | junk
deriving DecidableEq

/-- `toISO` from news.mjs, resolved to epoch milliseconds: a falsy or
unparsable value becomes the current time `now`; a parseable value is kept
(ISO-8601 strings round-trip through `new Date`). -/
def toISOms (now : Int) : JDate → Int
  | .parseable ms => ms
  | .junk => now

/-- The instant a `publishedAt` value denotes, used by the sort comparator
`new Date(b.publishedAt) - new Date(a.publishedAt)`.  After normalization
every `publishedAt` is `parseable`, so the `junk` case is unreachable there. -/
def jdMs : JDate → Int
  | .parseable ms => ms
  | .junk => 0

/-- An article record as built by `norm` / stored in the news cache. -/
structure Article where
  title : String
  url : String
  source : String
  description : String
  publishedAt : JDate
deriving DecidableEq

/-- The characters after the first `://`, if any. -/
def afterScheme : List Char → Option (List Char)
  | ':' :: '/' :: '/' :: rest => some rest
  | _ :: rest => afterScheme rest
  | [] => none

/-- Strip one leading `www.`. -/
def stripWww : List Char → List Char
  | 'w' :: 'w' :: 'w' :: '.' :: rest => rest
  | l => l

/-- Model of `host` from news.mjs: `new URL(u).hostname` with a leading
`www.` stripped, and `""` when URL construction throws.  The hostname is
modelled as the text between the first `://` and the next delimiter. -/
def host (u : String) : String :=
  match afterScheme u.data with
  | some rest =>
      ⟨stripWww (rest.takeWhile fun c => !(c = '/' || c = ':' || c = '?' || c = '#'))⟩
  | none => ""

/-- `norm` from news.mjs (lines 157-166 and 400-409): null when title or url
is falsy (empty before trimming), otherwise the canonical article shape with
trimmed fields, source defaulted from the URL host, and `toISO` timestamp. -/
def norm (title url source summary : String) (ts : JDate) (now : Int) : Option Article :=
  if truthy title && truthy url then
    some { title := jsTrim title
           url := jsTrim url
           source := if truthy source then jsTrim source else host url
           description := jsTrim summary
           publishedAt := .parseable (toISOms now ts) }
  else none

/-- Dedup key from `dedupeByUrl`: `url.split('#')[0]`. -/
def urlKey (u : String) : String := ⟨u.data.takeWhile (· ≠ '#')⟩

/-- Worker of `dedupeByUrl` in news.mjs (lines 433-442): walk the list with a
`seen` set of keys, skipping entries whose key is empty and entries whose key
was already seen. -/
def dedupeGo (seen : List String) : List Article → List Article
  | [] => []
  | a :: rest =>
      let k := urlKey a.url
      if k = "" then dedupeGo seen rest
      else if k ∈ seen then dedupeGo seen rest
      else a :: dedupeGo (k :: seen) rest

/-- `dedupeByUrl` from news.mjs: keep the first item per fragment-stripped
URL key, dropping items with an empty key. -/
def dedupeByUrl (items : List Article) : List Article := dedupeGo [] items

/-- The per-article pass of `sanitizeArticles`: re-resolve `publishedAt`
through `toISO`, default `source` from the URL host, trim the description. -/
def normPass (now : Int) (a : Article) : Article :=
  { a with publishedAt := .parseable (toISOms now a.publishedAt)
           source := if truthy a.source then a.source else host a.url
           description := jsTrim a.description }

/-- The sort comparator of `sanitizeArticles`:
`(a, b) => new Date(b.publishedAt) - new Date(a.publishedAt)`, i.e. `a` may
come before `b` iff `b`'s instant is not after `a`'s (newest first).  JS
`Array.prototype.sort` is the stable sort consistent with this total
preorder, which `List.insertionSort` implements. -/
def pubDescR (a b : Article) : Prop := jdMs b.publishedAt ≤ jdMs a.publishedAt

instance : DecidableRel pubDescR := fun a b =>
  inferInstanceAs (Decidable (jdMs b.publishedAt ≤ jdMs a.publishedAt))

instance : IsTotal Article pubDescR := ⟨fun _ _ => le_total _ _⟩

instance : IsTrans Article pubDescR := ⟨fun _ _ _ h1 h2 => le_trans h2 h1⟩

/-- `sanitizeArticles` from news.mjs (lines 366-373): drop nulls, drop
records with falsy title or url, normalize each record, dedupe by URL, sort
newest first. -/
def sanitizeArticles (now : Int) (articles : List (Option Article)) : List Article :=
  let clean := ((articles.filterMap id).filter fun a => truthy a.title && truthy a.url).map
    (normPass now)
  (dedupeByUrl clean).insertionSort pubDescR

/-! News provider chains and the two news.mjs handlers. -/

/-- The news providers of news.mjs. -/
inductive Provider
  | newsapi
  | gnews
  | newsdata
  | finnhub
  | rss
deriving DecidableEq

/-- The provider name as it appears in the `source` field. -/
def Provider.name : Provider → String
  | .newsapi => "newsapi"
  | .gnews => "gnews"
  | .newsdata => "newsdata"
  | .finnhub => "finnhub"
  | .rss => "rss"

/-- The whitelisted news sections. -/
inductive Sect
  | frontpage
  | world
  | tech
  | finance
deriving DecidableEq

/-- `PROVIDERS` from news.mjs (both variants use the same map): the ordered
provider chain per section. -/
def PROVIDERS : Sect → List Provider
  | .frontpage => [.newsapi, .gnews, .newsdata, .rss]
  | .world => [.newsapi, .gnews, .newsdata, .rss]
  | .tech => [.newsapi, .gnews, .newsdata, .rss]
  | .finance => [.newsapi, .gnews, .newsdata, .finnhub]

/-- Which provider API keys are present in the environment. -/
structure Env where
  newsapiKey : Bool
  gnewsKey : Bool
  newsdataKey : Bool
  finnhubKey : Bool
deriving DecidableEq

/-- A provider is skipped (its key check throws / `continue`s) when its
required credential is absent; the keyless RSS provider is never skipped. -/
def keyMissing (env : Env) : Provider → Bool
  | .newsapi => !env.newsapiKey
  | .gnews => !env.gnewsKey
  | .newsdata => !env.newsdataKey
  | .finnhub => !env.finnhubKey
  | .rss => false

/-- The outcome of invoking one provider implementation: `none` when the call
throws, times out, or rejects; otherwise the raw mapped article list, whose
entries are `none` where `norm` returned null. -/
abbrev Impls := Provider → Option (List (Option Article))

/-- One provider attempt fails when its key is missing, its call throws, or
its sanitized output is empty. -/
def provFails (env : Env) (impls : Impls) (now : Int) (p : Provider) : Bool :=
  keyMissing env p ||
    match impls p with
    | none => true
    | some raw => (sanitizeArticles now raw).isEmpty

/-- The provider loop of the filesystem news.mjs handler (lines 231-250):
try each provider in order, skipping on a missing key or a thrown error, and
stop at the first whose sanitized output is non-empty. -/
def runChain (env : Env) (impls : Impls) (now : Int) :
    List Provider → Option (Provider × List Article)
  | [] => none
  | p :: ps =>
      if keyMissing env p then runChain env impls now ps
      else
        match impls p with
        | none => runChain env impls now ps
        | some raw =>
            if (sanitizeArticles now raw).isEmpty then runChain env impls now ps
            else some (p, sanitizeArticles now raw)

/-- The JSON body/status of a filesystem news.mjs handler response.
`message` and `source` are `none` when the JS object has no such field. -/
structure NewsResp where
  statusCode : Nat
  status : String
  articles : List Article
  message : Option String
  source : Option String
deriving DecidableEq

/-- A 200 `{ status: 'ok', articles, source }` response. -/
def okNews (articles : List Article) (src : String) : NewsResp :=
  ⟨200, "ok", articles, none, some src⟩

/-- The 502 `{ status: 'error', message }` response of news.mjs. -/
def errNews : NewsResp :=
  ⟨502, "error", [], some "All news sources are currently unavailable.", none⟩

/-- `readCache` from news.mjs (lines 333-342): the parsed cache file content
(`none` when the file is missing or unparsable) re-sanitized on every read. -/
def readCache (now : Int) (content : Option (List (Option Article))) : Option (List Article) :=
  content.map (sanitizeArticles now)

/-- The filesystem news.mjs handler (lines 226-258): run the provider chain;
on success answer 200 with the winning provider as `source`; otherwise serve
the re-sanitized cache if it has at least one article; otherwise answer the
502 error. -/
def newsHandler (env : Env) (impls : Impls) (cacheContent : Option (List (Option Article)))
    (now : Int) (sect : Sect) : NewsResp :=
  match runChain env impls now (PROVIDERS sect) with
  | some (p, cleaned) => okNews cleaned p.name
  | none =>
      match readCache now cacheContent with
      | some cached => if cached.isEmpty then errNews else okNews cached "cache"
      | none => errNews

/-- The response payload of the blob-cache news.mjs handler; a cached blob is
spread into the answer, so `status` comes from the blob on the cache path. -/
structure BlobPayload where
  status : String
  articles : List Article
  source : Option String
  message : Option String
  fetchedAt : Option Int
deriving DecidableEq

/-- `fetchSection` of the blob-cache news.mjs variant (lines 50-60): return
at the first provider whose raw output is non-empty (nulls included), with
the nulls then filtered out; `none` models the final throw. -/
def fetchSection (env : Env) (impls : Impls) : List Provider → Option (List Article)
  | [] => none
  | p :: ps =>
      if keyMissing env p then fetchSection env impls ps
      else
        match impls p with
        | none => fetchSection env impls ps
        | some items =>
            if items.isEmpty then fetchSection env impls ps
            else some (items.filterMap id)

/-- The error payload of the blob-cache handler. -/
def v1ErrPayload : BlobPayload :=
  ⟨"error", [], none, some "All news sources are currently unavailable.", none⟩

/-- The blob-cache news.mjs handler (lines 17-46): on a fresh fetch with at
least one article answer 200 tagged `source: 'live'` with the list cut to
`MAX_ITEMS = 25`; otherwise serve the cached blob re-tagged `source: 'cache'`
when it has articles; otherwise answer 502. -/
def v1Handler (env : Env) (impls : Impls) (cached : Option BlobPayload) (now : Int)
    (sect : Sect) : Nat × BlobPayload :=
  let fallback : Nat × BlobPayload :=
    match cached with
    | some c => if c.articles.isEmpty then (502, v1ErrPayload)
                else (200, { c with source := some "cache" })
    | none => (502, v1ErrPayload)
  match fetchSection env impls (PROVIDERS sect) with
  | some articles =>
      if articles.isEmpty then fallback
      else (200, ⟨"ok", articles.take 25, some "live", none, some now⟩)
  | none => fallback

/-! The cooldown/ETag news.js handler. -/

/-- `PROVIDERS_BY_SECTION` from news.js (lines 103-108): RSS first. -/
def PROVIDERS_BY_SECTION : Sect → List Provider
  | .frontpage => [.rss, .newsapi, .gnews, .newsdata]
  | .world => [.rss, .newsapi, .gnews, .newsdata]
  | .tech => [.rss, .newsapi, .gnews, .newsdata]
  | .finance => [.rss, .newsapi, .gnews, .finnhub]

/-- `COOLDOWN_MS` from news.js: five minutes. -/
def COOLDOWN_MS : Int := 5 * 60 * 1000

/-- The cache record of news.js: `{ articles, etag, updatedAt, lastTriedAt }`. -/
structure CacheEntry where
  articles : List Article
  etag : Option String
  updatedAt : Int
  lastTriedAt : Int
deriving DecidableEq

/-- Modelled from the spec: `withinCooldown` is defined in the part of
news.js missing from src/ (only its call sites survive).  Per the config
comment ("don't hit upstream more than once per 5 min per section", line
109) and spec section 4.1 step 1, a cache entry is within the cooldown when
less than `COOLDOWN_MS` has passed since the section was last tried. -/
def withinCooldown (now : Int) (cache : Option CacheEntry) : Bool :=
  match cache with
  | some c => decide (now - c.lastTriedAt < COOLDOWN_MS)
  | none => false

/-- The first guard of the news.js handler (lines 121-123): the client sent
our current (truthy) ETag and we are inside the cooldown, so a 304 with that
ETag is due; returns the ETag to answer with. -/
def cooldown304 (cache : Option CacheEntry) (clientETag : Option String) (now : Int) :
    Option String :=
  match cache, clientETag with
  | some c, some ce =>
      match c.etag with
      | some e => if truthy e && e = ce && withinCooldown now (some c) then some e else none
      | none => none
  | _, _ => none

/-- A news.js response: 200 JSON with an optional ETag header, a bare 304,
or an error status. -/
inductive NewsJsResp
  | ok (articles : List Article) (source : String) (etag : Option String)
  | notModified (etag : String)
  | err (code : Nat) (msg : String)
deriving DecidableEq

/-- The tail of the news.js handler after the provider loop (lines 150-164):
on success answer 200 with the provider name and a fresh ETag; otherwise
serve the cache (304 when the client's truthy ETag matches a truthy cache
ETag); otherwise 502. -/
def afterChain (cache : Option CacheEntry) (clientETag : Option String)
    (mkETag : List Article → String) (result : Option (Provider × List Article)) : NewsJsResp :=
  match result with
  | some (p, arts) => .ok arts p.name (some (mkETag arts))
  | none =>
      match cache with
      | some c =>
          if c.articles.isEmpty then .err 502 "No news available."
          else
            match c.etag, clientETag with
            | some e, some ce =>
                if truthy ce && truthy e && ce = e then .notModified e
                else .ok c.articles "cache" c.etag
            | _, _ => .ok c.articles "cache" c.etag
      | none => .err 502 "No news available."

/-- The news.js handler (lines 113-165).  The second component records
whether the provider chain was attempted (false exactly on the two
cooldown early returns, which contact no upstream).  Its provider loop
skips key-less providers and stops at the first non-empty sanitized result,
i.e. it is the same loop as `runChain`; `sanitizeArticles` and the cache
helpers sit in the part of news.js missing from src/ and are modelled from
the spec as the news.mjs functions of the same name. -/
def newsJsHandler (env : Env) (impls : Impls) (cache : Option CacheEntry)
    (clientETag : Option String) (now : Int) (mkETag : List Article → String)
    (sect : Sect) : NewsJsResp × Bool :=
  match cooldown304 cache clientETag now with
  | some e => (.notModified e, false)
  | none =>
      match cache with
      | some c =>
          if withinCooldown now (some c) && !c.articles.isEmpty then
            (.ok c.articles "cache" c.etag, false)
          else
            (afterChain (some c) clientETag mkETag
              (runChain env impls now (PROVIDERS_BY_SECTION sect)), true)
      | none =>
          (afterChain none clientETag mkETag
            (runChain env impls now (PROVIDERS_BY_SECTION sect)), true)

/-! The TTL-cached mini-market handler. -/

/-- A mini-market JSON body; absent JSON fields are `none`.  `dataVals` is
the `{ btcUSD, xauUSD }` object. -/
structure MiniPayload where
  status : String
  dataVals : Option (Rat × Rat)
  source : Option String
  message : Option String
deriving DecidableEq

/-- The parsed mini-market cache file `{ ts, payload }`. -/
structure MiniCache where
  ts : Int
  payload : Option MiniPayload
deriving DecidableEq

/-- `TTL_MS` from mini-market.js with its default of 60 seconds. -/
def TTL_MS : Int := 60 * 1000

/-- A mini-market HTTP response: status code plus optional JSON body. -/
structure MiniResp where
  statusCode : Nat
  body : Option MiniPayload
deriving DecidableEq

/-- The fetch-and-fallback tail of the mini-market handler (lines 86-96):
both prices fetched means a fresh `{ status: 'ok', data }` body with no
`source` field; a failure falls back to the cached payload, or to a 500
error when none exists. -/
def miniFetch (cached : Option MiniCache) (btc xau : Option Rat) : MiniResp :=
  match btc, xau with
  | some b, some x => ⟨200, some ⟨"ok", some (b, x), none, none⟩⟩
  | _, _ =>
      match cached with
      | some c =>
          match c.payload with
          | some p => ⟨200, some p⟩
          | none => ⟨500, some ⟨"error", none, none, some "fetch failed"⟩⟩
      | none => ⟨500, some ⟨"error", none, none, some "fetch failed"⟩⟩

/-- The mini-market handler (lines 78-97): inside the TTL and not forced,
answer the cached payload verbatim; otherwise fetch both prices with cache
fallback.  The second component records whether any upstream was contacted
(false exactly on the TTL early return).  `btc`/`xau` are the outcomes of
`getBTC`/`getXAU` (`none` when both of a price's providers failed). -/
def miniHandler (force : Bool) (cached : Option MiniCache) (now : Int)
    (btc xau : Option Rat) : MiniResp × Bool :=
  match cached with
  | some c =>
      if !force && decide (now - c.ts ≤ TTL_MS) then (⟨200, c.payload⟩, false)
      else (miniFetch (some c) btc xau, true)
  | none => (miniFetch none btc xau, true)

/-! The market-data top-movers ranking. -/

/-- A JS number field as `topMovers` sees it: a finite number, a
non-finite number (NaN or infinite), or null/undefined. -/
inductive JsNum
  | num (x : Rat)
  | nan
  | null
deriving DecidableEq

/-- A quote record `{ ticker, name, c, d, dp }` from market-data.js. -/
structure Quote where
  ticker : String
  name : String
  c : JsNum
  d : JsNum
  dp : JsNum
deriving DecidableEq

/-- A row pushed by `topMovers`: `{ ticker, c, d, dp }` with `dp` known
finite. -/
structure Row where
  ticker : String
  c : JsNum
  d : JsNum
  dp : Rat
deriving DecidableEq

/-- `typeof dp === 'number' && Number.isFinite(dp)`, returning the value. -/
def finiteDp : JsNum → Option Rat
  | .num x => some x
  | .nan => none
  | .null => none

/-- The eligible rows of `topMovers` (lines 225-231), in universe order. -/
def moversRows (tickers : List String) (quoteMap : String → Option Quote) : List Row :=
  tickers.filterMap fun t =>
    match quoteMap t with
    | some q => (finiteDp q.dp).map fun x => ⟨t, q.c, q.d, x⟩
    | none => none

/-- The `topMovers` comparator `(a, b) => Math.abs(b.dp) - Math.abs(a.dp)`:
descending absolute percent change; JS `Array.prototype.sort` is the stable
sort consistent with this total preorder, i.e. `List.insertionSort`. -/
def absDescR (a b : Row) : Prop := |b.dp| ≤ |a.dp|

instance : DecidableRel absDescR := fun a b => inferInstanceAs (Decidable (|b.dp| ≤ |a.dp|))

instance : IsTotal Row absDescR := ⟨fun _ _ => le_total _ _⟩

instance : IsTrans Row absDescR := ⟨fun _ _ _ h1 h2 => le_trans h2 h1⟩

/-- `topMovers` from market-data.js (lines 224-234): keep quotes of the
universe with a finite `dp`, sort by absolute `dp` descending, truncate. -/
def topMovers (tickers : List String) (quoteMap : String → Option Quote) (count : Nat) :
    List Row :=
  ((moversRows tickers quoteMap).insertionSort absDescR).take count

/-! Helper lemmas: trimming. -/

theorem dropWhile_dropWhile_self {α : Type} (p : α → Bool) :
    ∀ l : List α, (l.dropWhile p).dropWhile p = l.dropWhile p
  | [] => rfl
  | a :: l => by
    by_cases h : p a
    · simp [List.dropWhile_cons, h, dropWhile_dropWhile_self p l]
    · simp [List.dropWhile_cons, h]

theorem dropWhile_eq_self_of_prefix {α : Type} (p : α → Bool) (l₁ l₂ : List α)
    (h : (l₁ ++ l₂).dropWhile p = l₁ ++ l₂) : l₁.dropWhile p = l₁ := by
  cases l₁ with
  | nil => rfl
  | cons a t =>
    rw [List.cons_append, List.dropWhile_cons] at h
    by_cases hp : p a
    · rw [if_pos hp] at h
      have hlen := congrArg List.length h
      have hsub : List.Sublist ((t ++ l₂).dropWhile p) (t ++ l₂) := List.dropWhile_sublist p
      have hle := hsub.length_le
      simp only [List.length_cons] at hlen
      omega
    · rw [List.dropWhile_cons, if_neg hp]

theorem trimRightChars_prefix (l : List Char) :
    l = trimRightChars l ++ (l.reverse.takeWhile isJsSpace).reverse := by
  have h : l.reverse.takeWhile isJsSpace ++ l.reverse.dropWhile isJsSpace = l.reverse :=
    List.takeWhile_append_dropWhile isJsSpace l.reverse
  calc l = l.reverse.reverse := (List.reverse_reverse l).symm
    _ = (l.reverse.takeWhile isJsSpace ++ l.reverse.dropWhile isJsSpace).reverse := by rw [h]
    _ = trimRightChars l ++ (l.reverse.takeWhile isJsSpace).reverse := by
        rw [List.reverse_append]; rfl

theorem trimLeft_trimRight (l : List Char) (h : trimLeftChars l = l) :
    trimLeftChars (trimRightChars l) = trimRightChars l := by
  have hpre := trimRightChars_prefix l
  unfold trimLeftChars at h ⊢
  exact dropWhile_eq_self_of_prefix _ _ _ (hpre ▸ h)

theorem trimRight_trimRight (l : List Char) :
    trimRightChars (trimRightChars l) = trimRightChars l := by
  unfold trimRightChars
  rw [List.reverse_reverse, dropWhile_dropWhile_self]

/-- `trim` is idempotent. -/
theorem jsTrim_jsTrim (s : String) : jsTrim (jsTrim s) = jsTrim s := by
  show (⟨trimRightChars (trimLeftChars (trimRightChars (trimLeftChars s.data)))⟩ : String) = _
  have h1 : trimLeftChars (trimLeftChars s.data) = trimLeftChars s.data :=
    dropWhile_dropWhile_self _ _
  rw [trimLeft_trimRight _ h1, trimRight_trimRight]
  rfl

/-! Helper lemmas: deduplication. -/

theorem dedupeGo_sublist (seen : List String) :
    ∀ l : List Article, List.Sublist (dedupeGo seen l) l
  | [] => List.Sublist.refl _
  | a :: rest => by
    simp only [dedupeGo]
    split
    · exact (dedupeGo_sublist seen rest).cons a
    · split
      · exact (dedupeGo_sublist seen rest).cons a
      · exact (dedupeGo_sublist _ rest).cons₂ a

theorem dedupeGo_keys (seen : List String) : ∀ l : List Article,
    (∀ a ∈ dedupeGo seen l, urlKey a.url ≠ "" ∧ urlKey a.url ∉ seen) ∧
      ((dedupeGo seen l).map fun a => urlKey a.url).Nodup
  | [] => by simp [dedupeGo]
  | a :: rest => by
    simp only [dedupeGo]
    split
    · exact dedupeGo_keys seen rest
    · split
      · exact dedupeGo_keys seen rest
      · rename_i hne hnotin
        obtain ⟨ihmem, ihnodup⟩ := dedupeGo_keys (urlKey a.url :: seen) rest
        constructor
        · intro b hb
          rcases List.mem_cons.1 hb with hb | hb
          · subst hb; exact ⟨hne, hnotin⟩
          · obtain ⟨h1, h2⟩ := ihmem b hb
            exact ⟨h1, fun hmem => h2 (List.mem_cons_of_mem _ hmem)⟩
        · rw [List.map_cons, List.nodup_cons]
          refine ⟨fun hmem => ?_, ihnodup⟩
          obtain ⟨b, hb, hkb⟩ := List.mem_map.1 hmem
          exact (ihmem b hb).2 (hkb ▸ List.mem_cons_self _ _)

theorem dedupeGo_eq_self (seen : List String) : ∀ l : List Article,
    (∀ a ∈ l, urlKey a.url ≠ "" ∧ urlKey a.url ∉ seen) →
    ((l.map fun a => urlKey a.url).Nodup) →
    dedupeGo seen l = l
  | [], _, _ => rfl
  | a :: rest, hmem, hnodup => by
    obtain ⟨hne, hnotin⟩ := hmem a (List.mem_cons_self _ _)
    rw [List.map_cons, List.nodup_cons] at hnodup
    simp only [dedupeGo, if_neg hne, if_neg hnotin]
    congr 1
    refine dedupeGo_eq_self _ rest (fun b hb => ?_) hnodup.2
    obtain ⟨h1, h2⟩ := hmem b (List.mem_cons_of_mem _ hb)
    refine ⟨h1, fun hk => ?_⟩
    rcases List.mem_cons.1 hk with hk | hk
    · exact hnodup.1 (hk ▸ List.mem_map_of_mem (fun a => urlKey a.url) hb)
    · exact h2 hk

/-! Helper lemmas: the sanitizer. -/

theorem normPass_title (now : Int) (a : Article) : (normPass now a).title = a.title := rfl

theorem normPass_url (now : Int) (a : Article) : (normPass now a).url = a.url := rfl

/-- The normalization pass is idempotent (its second run sees a parseable
timestamp, an already-defaulted source and a trimmed description). -/
theorem normPass_normPass (now now' : Int) (a : Article) :
    normPass now' (normPass now a) = normPass now a := by
  by_cases h : truthy a.source
  · simp [normPass, toISOms, jsTrim_jsTrim, h]
  · simp [normPass, toISOms, jsTrim_jsTrim, h, ite_self]

/-- The stages of `sanitizeArticles`, named for the proofs. -/
def cleanList (now : Int) (articles : List (Option Article)) : List Article :=
  ((articles.filterMap id).filter fun a => truthy a.title && truthy a.url).map (normPass now)

theorem sanitizeArticles_eq (now : Int) (articles : List (Option Article)) :
    sanitizeArticles now articles =
      (dedupeByUrl (cleanList now articles)).insertionSort pubDescR := rfl

/-- Every sanitized article is the normalization of a truthy-titled,
truthy-urled input article. -/
theorem sanitizeArticles_mem {now : Int} {articles : List (Option Article)} {a : Article}
    (h : a ∈ sanitizeArticles now articles) :
    ∃ b, some b ∈ articles ∧ truthy b.title ∧ truthy b.url ∧ a = normPass now b := by
  rw [sanitizeArticles_eq] at h
  replace h := (List.mem_insertionSort pubDescR).1 h
  replace h := (dedupeGo_sublist [] _).subset h
  obtain ⟨b, hb, rfl⟩ := List.mem_map.1 h
  rw [List.mem_filter] at hb
  obtain ⟨hmem, htu⟩ := hb
  rw [Bool.and_eq_true] at htu
  obtain ⟨c, hc, hcb⟩ := List.mem_filterMap.1 hmem
  simp only [id] at hcb
  subst hcb
  exact ⟨b, hc, htu.1, htu.2, rfl⟩

/-- Sanitized articles have truthy title and url and a parseable timestamp,
and are fixed by a further normalization pass. -/
theorem sanitizeArticles_mem_props {now : Int} (now' : Int) {articles : List (Option Article)}
    {a : Article} (h : a ∈ sanitizeArticles now articles) :
    truthy a.title = true ∧ truthy a.url = true ∧ normPass now' a = a := by
  obtain ⟨b, _, ht, hu, rfl⟩ := sanitizeArticles_mem h
  exact ⟨by rwa [normPass_title], by rwa [normPass_url], normPass_normPass now now' b⟩

/-- The sanitized output is sorted newest-first. -/
theorem sanitizeArticles_sorted (now : Int) (articles : List (Option Article)) :
    (sanitizeArticles now articles).Sorted pubDescR := by
  rw [sanitizeArticles_eq]
  exact List.sorted_insertionSort pubDescR _

/-- The sanitized output has pairwise-distinct, non-empty URL keys. -/
theorem sanitizeArticles_keys (now : Int) (articles : List (Option Article)) :
    ((sanitizeArticles now articles).map fun a => urlKey a.url).Nodup ∧
      ∀ a ∈ sanitizeArticles now articles, urlKey a.url ≠ "" := by
  rw [sanitizeArticles_eq]
  have hperm := (List.perm_insertionSort pubDescR (dedupeByUrl (cleanList now articles))).map
    fun a => urlKey a.url
  obtain ⟨hmem, hnodup⟩ := dedupeGo_keys [] (cleanList now articles)
  refine ⟨hperm.nodup_iff.2 hnodup, fun a ha => ?_⟩
  exact (hmem a ((List.mem_insertionSort pubDescR).1 ha)).1

/-- `sanitizeArticles` is idempotent: a second run over its own output (as a
list of non-null records, under any current time) returns it unchanged. -/
theorem sanitizeArticles_idem (now now' : Int) (articles : List (Option Article)) :
    sanitizeArticles now' ((sanitizeArticles now articles).map some) =
      sanitizeArticles now articles := by
  set out := sanitizeArticles now articles with hout
  have hclean : cleanList now' (out.map some) = out := by
    unfold cleanList
    rw [List.filterMap_map]
    have hfm : List.filterMap (id ∘ some) out = out := by
      simp
    rw [hfm]
    have hfil : (out.filter fun a => truthy a.title && truthy a.url) = out := by
      rw [List.filter_eq_self]
      intro a ha
      obtain ⟨h1, h2, _⟩ := sanitizeArticles_mem_props now' (hout ▸ ha)
      simp [h1, h2]
    rw [hfil]
    have : ∀ a ∈ out, normPass now' a = a := fun a ha =>
      (sanitizeArticles_mem_props now' (hout ▸ ha)).2.2
    calc out.map (normPass now') = out.map id := List.map_congr_left this
      _ = out := List.map_id out
  rw [sanitizeArticles_eq, hclean]
  obtain ⟨hnodup, hkeys⟩ := sanitizeArticles_keys now articles
  have hdedupe : dedupeByUrl out = out := by
    unfold dedupeByUrl
    exact dedupeGo_eq_self [] out
      (fun a ha => ⟨hkeys a (hout ▸ ha), List.not_mem_nil _⟩) (hout ▸ hnodup)
  rw [hdedupe]
  exact (sanitizeArticles_sorted now articles).insertionSort_eq

/-! Helper lemmas: the provider chain. -/

/-- If the chain loop answers `(p, arts)` then every provider before `p` in
the chain failed, `p` did not fail, and `arts` is exactly `p`'s sanitized
(non-empty) output. -/
theorem runChain_eq_some (env : Env) (impls : Impls) (now : Int) :
    ∀ {chain : List Provider} {p : Provider} {arts : List Article},
      runChain env impls now chain = some (p, arts) →
      (∃ pre post, chain = pre ++ p :: post ∧
        ∀ q ∈ pre, provFails env impls now q = true) ∧
      provFails env impls now p = false ∧
      ∃ raw, impls p = some raw ∧ arts = sanitizeArticles now raw ∧ arts ≠ []
  | [], p, arts => by simp [runChain]
  | q :: ps, p, arts => by
    intro h
    simp only [runChain] at h
    by_cases hk : keyMissing env q = true
    · rw [if_pos hk] at h
      obtain ⟨⟨pre, post, hchain, hpre⟩, h2, h3⟩ := runChain_eq_some env impls now h
      refine ⟨⟨q :: pre, post, by rw [hchain]; rfl, fun r hr => ?_⟩, h2, h3⟩
      rcases List.mem_cons.1 hr with hr | hr
      · subst hr; simp [provFails, hk]
      · exact hpre r hr
    · rw [if_neg hk] at h
      rcases him : impls q with _ | raw
      · rw [him] at h
        obtain ⟨⟨pre, post, hchain, hpre⟩, h2, h3⟩ := runChain_eq_some env impls now h
        refine ⟨⟨q :: pre, post, by rw [hchain]; rfl, fun r hr => ?_⟩, h2, h3⟩
        rcases List.mem_cons.1 hr with hr | hr
        · subst hr; simp [provFails, him]
        · exact hpre r hr
      · rw [him] at h
        dsimp only at h
        by_cases he : (sanitizeArticles now raw).isEmpty = true
        · rw [if_pos he] at h
          obtain ⟨⟨pre, post, hchain, hpre⟩, h2, h3⟩ := runChain_eq_some env impls now h
          refine ⟨⟨q :: pre, post, by rw [hchain]; rfl, fun r hr => ?_⟩, h2, h3⟩
          rcases List.mem_cons.1 hr with hr | hr
          · subst hr; simp [provFails, him, he]
          · exact hpre r hr
        · rw [if_neg he] at h
          obtain ⟨rfl, rfl⟩ := Prod.mk.injEq .. ▸ Option.some.injEq .. ▸ h
          refine ⟨⟨[], ps, rfl, by simp⟩, ?_, raw, him, rfl, ?_⟩
          · simp only [Bool.not_eq_true] at hk he
            simp [provFails, hk, him, he]
          · simpa [List.isEmpty_iff] using he

/-- The cache-serving branch of the filesystem news handler: when the chain
is exhausted and the cache sanitizes to a non-empty list, the response is 200
with the sanitized cached articles and `source: 'cache'`. -/
theorem newsHandler_cache_eq {env : Env} {impls : Impls} {content : List (Option Article)}
    {now : Int} {sect : Sect}
    (hchain : runChain env impls now (PROVIDERS sect) = none)
    (hne : sanitizeArticles now content ≠ []) :
    newsHandler env impls (some content) now sect =
      okNews (sanitizeArticles now content) "cache" := by
  simp [newsHandler, hchain, readCache, List.isEmpty_iff, hne]

/-! Concrete fixtures used by witnesses and counterexamples. -/

/-- An environment with every provider key present. -/
def envAll : Env := ⟨true, true, true, true⟩

/-- An environment with no provider key present. -/
def envNone : Env := ⟨false, false, false, false⟩

/-- Provider outcomes where every call throws. -/
def implsNone : Impls := fun _ => none

/-- A raw valid article. -/
def artA : Article := ⟨"T", "http://e.com/a", "", "", .junk⟩

/-- `artA` after the normalization pass with current time 0. -/
def artA' : Article := ⟨"T", "http://e.com/a", "e.com", "", .parseable 0⟩

/-- Provider outcomes where only GNews answers, with one valid article. -/
def implsGnews : Impls := fun p =>
  match p with
  | .gnews => some [some artA]
  | _ => none

/-- An environment lacking only the NewsAPI key. -/
def envNoNewsapi : Env := ⟨false, true, true, true⟩

/-- Provider outcomes where only NewsAPI answers, with one valid article. -/
def implsNewsapi : Impls := fun p =>
  match p with
  | .newsapi => some [some artA]
  | _ => none

/-! Claim theorems. -/

/-- C1 (amended): whenever the filesystem news.mjs handler's provider loop
answers from provider `p`, every provider listed before `p` in the section's
chain failed (missing key, thrown call, or empty sanitized output), `p`
itself did not fail, and the handler returns exactly `p`'s sanitized records
(at least one) with `source` equal to `p`'s name. -/
theorem news_chain_first_success (env : Env) (impls : Impls)
    (cacheContent : Option (List (Option Article))) (now : Int) (sect : Sect)
    (p : Provider) (arts : List Article)
    (h : runChain env impls now (PROVIDERS sect) = some (p, arts)) :
    (∃ pre post, PROVIDERS sect = pre ++ p :: post ∧
        ∀ q ∈ pre, provFails env impls now q = true) ∧
    provFails env impls now p = false ∧
    (∃ raw, impls p = some raw ∧ arts = sanitizeArticles now raw ∧ arts ≠ []) ∧
    newsHandler env impls cacheContent now sect = okNews arts p.name := by
  obtain ⟨h1, h2, h3⟩ := runChain_eq_some env impls now h
  exact ⟨h1, h2, h3, by simp [newsHandler, h]⟩

/-- C1 witness: with the NewsAPI key absent and GNews succeeding on the
frontpage chain, the handler answers GNews's single sanitized article with
`source: 'gnews'`. -/
theorem news_chain_first_success_witness :
    (∃ pre post, PROVIDERS .frontpage = pre ++ Provider.gnews :: post ∧
        ∀ q ∈ pre, provFails envNoNewsapi implsGnews 0 q = true) ∧
    provFails envNoNewsapi implsGnews 0 .gnews = false ∧
    (∃ raw, implsGnews .gnews = some raw ∧ [artA'] = sanitizeArticles 0 raw ∧
      [artA'] ≠ ([] : List Article)) ∧
    newsHandler envNoNewsapi implsGnews none 0 .frontpage =
      okNews [artA'] (Provider.gnews).name :=
  news_chain_first_success envNoNewsapi implsGnews none 0 .frontpage .gnews [artA'] (by decide)

/-- C1 counterexample: the blob-cache news.mjs handler labels a successful
fetch `source: 'live'`, not with the succeeding provider's name, even though
the chain's first provider NewsAPI produced the records. -/
theorem blob_news_source_is_live :
    fetchSection envAll implsNewsapi (PROVIDERS .frontpage) = some [artA] ∧
    (v1Handler envAll implsNewsapi none 0 .frontpage).2.source = some "live" ∧
    (v1Handler envAll implsNewsapi none 0 .frontpage).2.source ≠
      some (Provider.newsapi).name :=
  ⟨by decide, by decide, by decide⟩

/-- C2 (amended): when every provider in the chain fails or is skipped and
the cache entry sanitizes to at least one valid article, the filesystem news
handler returns HTTP 200, status `ok`, payload equal to the sanitized cached
articles, annotated `source: 'cache'`. -/
theorem cache_fallback_ok (env : Env) (impls : Impls) (content : List (Option Article))
    (now : Int) (sect : Sect)
    (hchain : runChain env impls now (PROVIDERS sect) = none)
    (hne : sanitizeArticles now content ≠ []) :
    newsHandler env impls (some content) now sect =
      okNews (sanitizeArticles now content) "cache" ∧
    (newsHandler env impls (some content) now sect).statusCode = 200 ∧
    (newsHandler env impls (some content) now sect).status = "ok" := by
  have h := newsHandler_cache_eq hchain hne
  exact ⟨h, by rw [h]; rfl, by rw [h]; rfl⟩

/-- C2 witness: with all providers failing and a cache holding one valid
article, the handler serves the sanitized article from cache with 200/ok. -/
theorem cache_fallback_ok_witness :
    newsHandler envNone implsNone (some [some artA]) 0 .frontpage =
      okNews (sanitizeArticles 0 [some artA]) "cache" ∧
    (newsHandler envNone implsNone (some [some artA]) 0 .frontpage).statusCode = 200 ∧
    (newsHandler envNone implsNone (some [some artA]) 0 .frontpage).status = "ok" :=
  cache_fallback_ok envNone implsNone [some artA] 0 .frontpage (by decide) (by decide)

/-- A cache file whose only record has a falsy URL: the entry exists but
sanitizes to nothing. -/
def badCacheC2 : List (Option Article) := [some ⟨"T", "", "s", "", .junk⟩]

/-- C2 counterexample: all providers fail and a cache entry exists, yet the
handler returns the 502 error (the entry holds no valid article), refuting
"a cache entry of any age suffices, and never an error status". -/
theorem cache_entry_yet_error :
    (newsHandler envNone implsNone (some badCacheC2) 0 .frontpage).statusCode = 502 ∧
    (newsHandler envNone implsNone (some badCacheC2) 0 .frontpage).status = "error" ∧
    (some badCacheC2).isSome = true :=
  ⟨by decide, by decide, rfl⟩

/-- C3 (amended): the filesystem news handler returns an error response
exactly when the provider chain is exhausted and the cache yields no valid
article (missing, unreadable, or sanitizing to the empty list); and any error
response is the fixed 502 `status: 'error'` body. -/
theorem error_iff_total_exhaustion (env : Env) (impls : Impls)
    (cacheContent : Option (List (Option Article))) (now : Int) (sect : Sect) :
    ((newsHandler env impls cacheContent now sect).status = "error" ↔
      runChain env impls now (PROVIDERS sect) = none ∧
        (readCache now cacheContent).getD [] = []) ∧
    ((newsHandler env impls cacheContent now sect).status = "error" →
      newsHandler env impls cacheContent now sect = errNews) := by
  rcases hrc : runChain env impls now (PROVIDERS sect) with _ | ⟨p, arts⟩
  · rcases hcc : cacheContent with _ | content
    · simp [newsHandler, hrc, hcc, readCache, errNews, okNews]
    · by_cases he : sanitizeArticles now content = []
      · simp [newsHandler, hrc, readCache, List.isEmpty_iff, he, errNews, okNews]
      · simp [newsHandler, hrc, readCache, List.isEmpty_iff, he, errNews, okNews]
  · simp [newsHandler, hrc, okNews, errNews]

/-- C3 witness: all providers failing with no cache file at all produces the
502 error response. -/
theorem error_iff_total_exhaustion_witness :
    (newsHandler envNone implsNone none 0 .tech).status = "error" ∧
    newsHandler envNone implsNone none 0 .tech = errNews := by
  have h := error_iff_total_exhaustion envNone implsNone none 0 .tech
  have he := h.1.mpr (by decide)
  exact ⟨he, h.2 he⟩

/-- A cache file whose only record has a falsy title. -/
def badCacheC3 : List (Option Article) := [some ⟨"", "http://a/b", "", "", .parseable 1⟩]

/-- C3 counterexample: an error response is returned while a cache entry
exists (it holds no valid article), refuting "total exhaustion with no cache
entry is the only condition producing an error response". -/
theorem error_despite_cache_entry :
    (newsHandler envNone implsNone (some badCacheC3) 0 .world).status = "error" ∧
    (some badCacheC3).isSome = true :=
  ⟨by decide, rfl⟩

/-- C5 (amended): every non-error response of the filesystem news handler
carries a `source` that is `'cache'` or the name of a provider of the
section's chain; every non-error response of the blob-cache handler carries
`source` `'live'` or `'cache'`. -/
theorem ok_response_has_source :
    (∀ (env : Env) (impls : Impls) (cacheContent : Option (List (Option Article)))
      (now : Int) (sect : Sect),
      (newsHandler env impls cacheContent now sect).status = "ok" →
      (newsHandler env impls cacheContent now sect).statusCode = 200 ∧
      ∃ src, (newsHandler env impls cacheContent now sect).source = some src ∧
        (src = "cache" ∨ ∃ p, p ∈ PROVIDERS sect ∧ src = p.name)) ∧
    (∀ (env : Env) (impls : Impls) (cached : Option BlobPayload) (now : Int) (sect : Sect),
      (v1Handler env impls cached now sect).2.status = "ok" →
      (v1Handler env impls cached now sect).2.source = some "live" ∨
      (v1Handler env impls cached now sect).2.source = some "cache") := by
  constructor
  · intro env impls cacheContent now sect h
    rcases hrc : runChain env impls now (PROVIDERS sect) with _ | ⟨p, arts⟩
    · rcases cacheContent with _ | content
      · simp [newsHandler, hrc, readCache, errNews] at h
      · by_cases he : sanitizeArticles now content = []
        · simp [newsHandler, hrc, readCache, List.isEmpty_iff, he, errNews] at h
        · rw [newsHandler_cache_eq hrc he]
          exact ⟨rfl, "cache", rfl, Or.inl rfl⟩
    · obtain ⟨⟨pre, post, hchain, _⟩, _, _⟩ := runChain_eq_some env impls now hrc
      have hp : p ∈ PROVIDERS sect := by
        rw [hchain]; exact List.mem_append_right pre (List.mem_cons_self _ _)
      simp only [newsHandler, hrc]
      exact ⟨rfl, p.name, rfl, Or.inr ⟨p, hp, rfl⟩⟩
  · intro env impls cached now sect h
    rcases hfs : fetchSection env impls (PROVIDERS sect) with _ | articles
    · rcases cached with _ | c
      · simp [v1Handler, hfs, v1ErrPayload] at h
      · by_cases hc : c.articles = []
        · simp [v1Handler, hfs, List.isEmpty_iff, hc, v1ErrPayload] at h
        · simp [v1Handler, hfs, List.isEmpty_iff, hc]
    · by_cases ha : articles = []
      · rcases cached with _ | c
        · simp [v1Handler, hfs, ha, List.isEmpty_iff, v1ErrPayload] at h
        · by_cases hc : c.articles = []
          · simp [v1Handler, hfs, ha, List.isEmpty_iff, hc, v1ErrPayload] at h
          · simp [v1Handler, hfs, ha, List.isEmpty_iff, hc]
      · simp [v1Handler, hfs, List.isEmpty_iff, ha]

/-- C5 witness: a chain success carries the provider name; a blob success
carries `'live'`. -/
theorem ok_response_has_source_witness :
    ((newsHandler envNoNewsapi implsGnews none 0 .frontpage).statusCode = 200 ∧
      ∃ src, (newsHandler envNoNewsapi implsGnews none 0 .frontpage).source = some src ∧
        (src = "cache" ∨ ∃ p, p ∈ PROVIDERS .frontpage ∧ src = p.name)) ∧
    ((v1Handler envAll implsNewsapi none 0 .frontpage).2.source = some "live" ∨
      (v1Handler envAll implsNewsapi none 0 .frontpage).2.source = some "cache") :=
  ⟨ok_response_has_source.1 envNoNewsapi implsGnews none 0 .frontpage (by decide),
   ok_response_has_source.2 envAll implsNewsapi none 0 .frontpage (by decide)⟩

/-- The fresh mini-market success body: no `source` field at all. -/
def miniOkBody : MiniPayload := ⟨"ok", some (100, 2000), none, none⟩

/-- C5 counterexample: a successful (status `ok`) mini-market response whose
body carries no `source` field, refuting "every non-error response of any
handler carries a source field". -/
theorem mini_ok_without_source :
    (miniHandler false none 0 (some 100) (some 2000)).1 = ⟨200, some miniOkBody⟩ ∧
    miniOkBody.status = "ok" ∧
    miniOkBody.source = none :=
  ⟨by decide, rfl, rfl⟩

/-- C4 (amended): inside the freshness window no upstream is contacted.  The
news.js handler, within the cooldown with a non-empty cached article list and
no ETag 304, returns the cached articles annotated `source: 'cache'`; the
mini-market handler, unforced and within the TTL, returns the cached payload
verbatim (no `source: 'cache'` annotation is added). -/
theorem freshness_window_serves_cache :
    (∀ (env : Env) (impls : Impls) (c : CacheEntry) (clientETag : Option String)
      (now : Int) (mkETag : List Article → String) (sect : Sect),
      cooldown304 (some c) clientETag now = none →
      withinCooldown now (some c) = true →
      c.articles ≠ [] →
      newsJsHandler env impls (some c) clientETag now mkETag sect =
        (.ok c.articles "cache" c.etag, false)) ∧
    (∀ (c : MiniCache) (now : Int) (btc xau : Option Rat),
      now - c.ts ≤ TTL_MS →
      miniHandler false (some c) now btc xau = (⟨200, c.payload⟩, false)) := by
  constructor
  · intro env impls c clientETag now mkETag sect h304 hcool hne
    simp [newsJsHandler, h304, hcool, List.isEmpty_iff, hne]
  · intro c now btc xau h
    simp [miniHandler, h]

/-- C4 witness: a cache entry last tried one minute ago (cooldown five
minutes) is served as `source: 'cache'` with no upstream contact, and a
mini-market cache one second old (TTL one minute) is served verbatim. -/
theorem freshness_window_serves_cache_witness :
    newsJsHandler envNone implsNone
        (some ⟨[artA'], none, -60000, -60000⟩) none 0 (fun _ => "e") .frontpage =
      (.ok [artA'] "cache" none, false) ∧
    miniHandler false (some ⟨-1000, some miniOkBody⟩) 0 none none =
      (⟨200, some miniOkBody⟩, false) :=
  ⟨freshness_window_serves_cache.1 envNone implsNone ⟨[artA'], none, -60000, -60000⟩
      none 0 (fun _ => "e") .frontpage (by decide) (by decide) (by decide),
   freshness_window_serves_cache.2 ⟨-1000, some miniOkBody⟩ 0 none none (by decide)⟩

/-- A mini-market cache entry 30 seconds old. -/
def freshMiniCache : MiniCache := ⟨-30000, some miniOkBody⟩

/-- C4 counterexample: within the TTL the mini-market handler returns the
cached payload without annotating it `source: 'cache'` (the body's `source`
field is absent), refuting "returns the cached payload annotated source
'cache'". -/
theorem fresh_cache_not_annotated :
    (miniHandler false (some freshMiniCache) 0 none none).1.body = some miniOkBody ∧
    miniOkBody.source = none ∧
    (miniHandler false (some freshMiniCache) 0 none none).2 = false :=
  ⟨by decide, rfl, by decide⟩

/-! C6: the top-movers ranking. -/

/-- The quote universe of the spec's worked example. -/
def exUniverse : List String := ["A", "B", "C", "D"]

/-- The quote map of the spec's worked example. -/
def exQuoteMap : String → Option Quote := fun t =>
  if t = "A" then some ⟨"A", "A", .num 10, .num 1, .num 1⟩
  else if t = "B" then some ⟨"B", "B", .num 10, .num 1, .num (-5)⟩
  else if t = "C" then some ⟨"C", "C", .num 10, .num 1, .num 2⟩
  else if t = "D" then some ⟨"D", "D", .num 10, .num 1, .nan⟩
  else none

/-- The expected first row of the example. -/
def exRowB : Row := ⟨"B", .num 10, .num 1, -5⟩

/-- The expected second row of the example. -/
def exRowC : Row := ⟨"C", .num 10, .num 1, 2⟩

/-- C6: `topMovers` returns at most `count` rows, sorted by absolute
percent-change descending; every returned row is the quote of a universe
ticker with a finite `dp`; when `count` covers all eligible rows the result
is a permutation of them; and on the spec's example it returns `[B, C]`. -/
theorem topMovers_spec :
    (∀ (tickers : List String) (quoteMap : String → Option Quote) (count : Nat),
      (topMovers tickers quoteMap count).length ≤ count ∧
      (topMovers tickers quoteMap count).Sorted absDescR ∧
      (∀ r ∈ topMovers tickers quoteMap count,
        r.ticker ∈ tickers ∧ ∃ q, quoteMap r.ticker = some q ∧
          q.dp = .num r.dp ∧ r.c = q.c ∧ r.d = q.d) ∧
      ((moversRows tickers quoteMap).length ≤ count →
        (topMovers tickers quoteMap count).Perm (moversRows tickers quoteMap))) ∧
    topMovers exUniverse exQuoteMap 2 = [exRowB, exRowC] := by
  constructor
  · intro tickers quoteMap count
    refine ⟨?_, ?_, ?_, ?_⟩
    · unfold topMovers
      exact List.length_take_le _ _
    · exact List.Pairwise.sublist (List.take_sublist count _)
        (List.sorted_insertionSort absDescR (moversRows tickers quoteMap))
    · intro r hr
      have hmem : r ∈ moversRows tickers quoteMap := by
        have h1 := (List.take_sublist count _).subset hr
        exact (List.mem_insertionSort absDescR).1 h1
      obtain ⟨t, ht, heq⟩ := List.mem_filterMap.1 hmem
      rcases hq : quoteMap t with _ | q
      · rw [hq] at heq; simp at heq
      · rw [hq] at heq
        dsimp only at heq
        rcases hdp : q.dp with x | _ | _ <;> rw [hdp] at heq <;>
          simp [finiteDp] at heq
        subst heq
        exact ⟨ht, q, hq, by rw [hdp], rfl, rfl⟩
    · intro hlen
      have hall : (topMovers tickers quoteMap count) =
          (moversRows tickers quoteMap).insertionSort absDescR := by
        unfold topMovers
        exact List.take_of_length_le (by simpa using hlen)
      rw [hall]
      exact List.perm_insertionSort absDescR _
  · decide

/-- C6 witness: on the example universe with count 3 the result is a
permutation of all three eligible rows, and the row for B is the quote of a
universe ticker with finite `dp`. -/
theorem topMovers_spec_witness :
    (topMovers exUniverse exQuoteMap 3).Perm (moversRows exUniverse exQuoteMap) ∧
    (exRowB.ticker ∈ exUniverse ∧ ∃ q, exQuoteMap exRowB.ticker = some q ∧
      q.dp = .num exRowB.dp ∧ exRowB.c = q.c ∧ exRowB.d = q.d) :=
  ⟨(topMovers_spec.1 exUniverse exQuoteMap 3).2.2.2 (by decide),
   (topMovers_spec.1 exUniverse exQuoteMap 3).2.2.1 exRowB (by decide)⟩

/-! C7: the required-field check of `norm`. -/

/-- C7 (amended): `norm` returns null exactly when its title or URL argument
is empty before trimming (in particular for an empty-string title with a
non-empty URL and for a non-empty title with an empty-string URL); otherwise
it returns a record with trimmed title and URL.  A whitespace-only title or
URL is accepted and trimmed to the empty string. -/
theorem norm_null_iff (title url source summary : String) (ts : JDate) (now : Int) :
    (norm title url source summary ts now = none ↔ title = "" ∨ url = "") ∧
    (∀ a, norm title url source summary ts now = some a →
      a.title = jsTrim title ∧ a.url = jsTrim url) := by
  by_cases ht : title = "" <;> by_cases hu : url = "" <;>
    simp [norm, truthy, ht, hu]

/-- C7 witness: the two required-field rejections of the claim, and the
trimmed fields of an accepted record. -/
theorem norm_null_iff_witness :
    norm "" "http://x/y" "" "" .junk 0 = none ∧
    norm "T" "" "" "" .junk 0 = none ∧
    ((⟨"T", "http://x/y", "x", "", .parseable 0⟩ : Article).title = jsTrim "T" ∧
      (⟨"T", "http://x/y", "x", "", .parseable 0⟩ : Article).url = jsTrim "http://x/y") :=
  ⟨(norm_null_iff "" "http://x/y" "" "" .junk 0).1.mpr (Or.inl rfl),
   (norm_null_iff "T" "" "" "" .junk 0).1.mpr (Or.inr rfl),
   (norm_null_iff "T" "http://x/y" "" "" .junk 0).2 _ (by decide)⟩

/-- C7 counterexample: a whitespace-only title is empty after trimming, yet
`norm` returns a record (with the title trimmed to empty) instead of the null
that the claim requires. -/
theorem norm_whitespace_title_not_null :
    norm " " "http://x/y" "" "" .junk 0 =
      some ⟨"", "http://x/y", "x", "", .parseable 0⟩ ∧
    jsTrim " " = "" :=
  ⟨by decide, by decide⟩

/-! C8 and C9: sanitizer invariants. -/

/-- C8: the sanitized output is sorted newest-first: its `publishedAt`
instants are non-increasing from the first element to the last. -/
theorem sanitize_sorted_newest_first (now : Int) (articles : List (Option Article)) :
    (sanitizeArticles now articles).Pairwise
      (fun a b => jdMs b.publishedAt ≤ jdMs a.publishedAt) :=
  sanitizeArticles_sorted now articles

/-- C9: `sanitizeArticles` is idempotent: running it again over its own
output (under any current time) returns the same list. -/
theorem sanitize_idempotent (now now' : Int) (articles : List (Option Article)) :
    sanitizeArticles now' ((sanitizeArticles now articles).map some) =
      sanitizeArticles now articles :=
  sanitizeArticles_idem now now' articles

/-! C10: cache reads are re-sanitized. -/

/-- C10: whatever the stored cache file holds, a cache-served response of the
filesystem news handler equals `sanitizeArticles` of the file's contents, so
it satisfies the required-field, URL-dedup and newest-first invariants. -/
theorem cache_served_is_sanitized (env : Env) (impls : Impls)
    (content : List (Option Article)) (now : Int) (sect : Sect)
    (hchain : runChain env impls now (PROVIDERS sect) = none)
    (hne : sanitizeArticles now content ≠ []) :
    newsHandler env impls (some content) now sect =
      okNews (sanitizeArticles now content) "cache" ∧
    (∀ a ∈ sanitizeArticles now content, truthy a.title = true ∧ truthy a.url = true) ∧
    ((sanitizeArticles now content).map fun a => urlKey a.url).Nodup ∧
    (sanitizeArticles now content).Pairwise
      (fun a b => jdMs b.publishedAt ≤ jdMs a.publishedAt) := by
  refine ⟨newsHandler_cache_eq hchain hne, fun a ha => ?_, (sanitizeArticles_keys now content).1,
    sanitizeArticles_sorted now content⟩
  obtain ⟨h1, h2, _⟩ := sanitizeArticles_mem_props now ha
  exact ⟨h1, h2⟩

/-- A corrupted cache file: a null entry, an invalid record, duplicate URLs
(up to fragment) and an out-of-order timestamp. -/
def dirtyCache : List (Option Article) :=
  [none,
   some ⟨"", "http://a/1", "", "", .parseable 9⟩,
   some ⟨"Old", "http://a/2", "", "", .parseable 1⟩,
   some ⟨"New", "http://a/3", "s", "", .parseable 8⟩,
   some ⟨"Dup", "http://a/2#x", "", "", .parseable 5⟩]

/-- C10 witness: serving the corrupted cache yields exactly its sanitized
form, with distinct URL keys and a non-increasing timestamp order. -/
theorem cache_served_is_sanitized_witness :
    newsHandler envNone implsNone (some dirtyCache) 0 .frontpage =
      okNews (sanitizeArticles 0 dirtyCache) "cache" ∧
    ((sanitizeArticles 0 dirtyCache).map fun a => urlKey a.url).Nodup ∧
    (sanitizeArticles 0 dirtyCache).Pairwise
      (fun a b => jdMs b.publishedAt ≤ jdMs a.publishedAt) := by
  have h := cache_served_is_sanitized envNone implsNone dirtyCache 0 .frontpage
    (by decide) (by decide)
  exact ⟨h.1, h.2.2.1, h.2.2.2⟩

end DailyNews
